import Mathlib

/-!
# Verification of `ColorHistObjectClassifier`

A shallow embedding of `ColorHistObjectClassifier.py`: a color-histogram
appearance model for a particle-filter tracker.  Images are lists of rows of
pixels; a pixel is a list of channel values (8-bit intensities, modelled as
naturals).  Float arithmetic is modelled over `ℚ` for the histogram pipeline
and over `ℝ` for the distance/weight layer; a float vector that becomes
all-NaN through a `0/0` division is modelled as `none : Option _`.
-/

/-- An image: a list of rows, each row a list of pixels, each pixel a list of
channel values (e.g. `[h, s, v]` for a 3-channel HSV image, `[g]` for
grayscale). -/
abbrev Image := List (List (List ℕ))

/-- Height of an image (`img.shape[0]` in numpy). -/
def imgHeight (img : Image) : ℕ := img.length

/-- Width of an image (`img.shape[1]` in numpy). -/
def imgWidth (img : Image) : ℕ := (img.headD []).length

/-- Python `int()` truncation toward zero, applied to an exact rational. -/
def pyInt (q : ℚ) : ℤ := if 0 ≤ q then ⌊q⌋ else ⌈q⌉

/-- Resolution of a (possibly negative) Python slice endpoint against a list
of length `n`: a negative index counts from the end and is clamped below at
`0`, a non-negative index is clamped above at `n`. -/
def resolveIdx (n : ℕ) (i : ℤ) : ℕ :=
  if i < 0 then ((n : ℤ) + i).toNat else min i.toNat n

/-- Python/numpy slice `l[s:e]` with full negative-index semantics. -/
def sliceList {α : Type} (l : List α) (s e : ℤ) : List α :=
  (l.drop (resolveIdx l.length s)).take (resolveIdx l.length e - resolveIdx l.length s)

/-- Modelled from the spec: the external Region abstraction (an axis-aligned
rectangle in image coordinates with edge accessors), whose implementation
lives in the repository's bounding-box module, not under `src/`. -/
structure BoundingBox where
  top : ℚ
  bottom : ℚ
  left : ℚ
  right : ℚ
deriving DecidableEq, Repr

/-- Modelled from the spec: translating the region so that it is re-centered
on `(x, y)`, keeping its size (the spec's "centered at (x,y)" accessor of the
external bounding-box module). -/
def BoundingBox.centered_on (bb : BoundingBox) (x y : ℚ) : BoundingBox :=
  { top := y - (bb.bottom - bb.top) / 2
  , bottom := y + (bb.bottom - bb.top) / 2
  , left := x - (bb.right - bb.left) / 2
  , right := x + (bb.right - bb.left) / 2 }

/-- Modelled from the spec: the center accessor of the external bounding-box
module, here packaged as a one-particle batch for `score_object`. -/
def BoundingBox.centroid (bb : BoundingBox) : ℚ × ℚ :=
  ((bb.left + bb.right) / 2, (bb.top + bb.bottom) / 2)

/-- The crop `img[int(top):int(bottom), int(left):int(right)]` with numpy
slice semantics. -/
def crop (img : Image) (bb : BoundingBox) : Image :=
  (sliceList img (pyInt bb.top) (pyInt bb.bottom)).map
    (fun row => sliceList row (pyInt bb.left) (pyInt bb.right))

/-- `cv2.split`: the per-channel planes of an image.  On an empty matrix
(zero rows or zero columns) OpenCV releases the output and returns no
channels at all; otherwise one single-channel plane per channel. -/
def cvSplit (img : Image) : List Image :=
  if img.length = 0 ∨ (img.headD []).length = 0 then []
  else
    (List.range ((img.headD []).headD []).length).map
      (fun c => img.map (fun row => row.map (fun p => [p.getD c 0])))

/-- All pixels of an image in row-major order. -/
def pixelsOf (img : Image) : List (List ℕ) := img.flatten

/-- The derived chromatic mask: `cv2.threshold(ch0, int(0.1*255)=25, 255,
THRESH_BINARY)` AND `cv2.threshold(ch1, int(0.2*255)=51, 255, THRESH_BINARY)`
(`THRESH_BINARY` sets 255 exactly where the value is strictly greater than
the threshold, and `bitwise_and` of the two 0/255 planes is conjunction). -/
def maskHS (p : List ℕ) : Bool := decide (25 < p.getD 0 0) && decide (51 < p.getD 1 0)

/-- The derived achromatic mask: `bitwise_xor` of the chromatic mask with an
all-255 plane, i.e. its complement. -/
def maskV (p : List ℕ) : Bool := ! maskHS p

/-- `cv2.calcHist` uniform bin index for one channel: a value `v` is counted
iff `lo ≤ v < hi`, in bin `⌊(v - lo) * b / (hi - lo)⌋`. -/
def binIndex (lo hi : ℚ) (b : ℕ) (v : ℕ) : Option ℕ :=
  if lo ≤ (v : ℚ) ∧ (v : ℚ) < hi then
    some (Int.toNat ⌊((v : ℚ) - lo) * b / (hi - lo)⌋)
  else none

/-- Row-major flattened bin index of the 2-D chromatic histogram: a pixel
falls in flat bin `i * b1 + j` iff its two chromatic channels fall in bins
`i` and `j`. -/
def hsIndex (c0 c1 : ℕ) (b0 b1 : ℕ) (lo0 hi0 lo1 hi1 : ℚ) (p : List ℕ) : Option ℕ :=
  match binIndex lo0 hi0 b0 (p.getD c0 0), binIndex lo1 hi1 b1 (p.getD c1 0) with
  | some i, some j => some (i * b1 + j)
  | _, _ => none

/-- `cv2.calcHist([obj_image], channels[:2], maskHS, num_bins[:2],
intervals[:4])`, flattened: counts of chromatic-mask pixels per flat bin. -/
def hsCounts (pix : List (List ℕ)) (c0 c1 : ℕ) (b0 b1 : ℕ)
    (lo0 hi0 lo1 hi1 : ℚ) : List ℚ :=
  (List.range (b0 * b1)).map
    (fun k => ((pix.filter
      (fun p => maskHS p && (hsIndex c0 c1 b0 b1 lo0 hi0 lo1 hi1 p == some k))).length : ℚ))

/-- `cv2.calcHist([obj_image], channels[2:3], maskV, num_bins[2:3],
intervals[4:])`: counts of achromatic-mask pixels per bin of the value
channel. -/
def vCounts (pix : List (List ℕ)) (c2 : ℕ) (b2 : ℕ) (lo2 hi2 : ℚ) : List ℚ :=
  (List.range b2).map
    (fun k => ((pix.filter
      (fun p => maskV p && (binIndex lo2 hi2 b2 (p.getD c2 0) == some k))).length : ℚ))

/-- The concatenation `hs_hist.flatten ++ v_hist.flatten` of the two count
histograms of source lines 86-90, before normalization. -/
def rawObjHist (img : Image) (objectBB : BoundingBox) (channels : List ℕ)
    (num_bins : List ℕ) (intervals : List ℚ) : List ℚ :=
  let pix := pixelsOf (crop img objectBB)
  hsCounts pix (channels.getD 0 0) (channels.getD 1 0)
      (num_bins.getD 0 0) (num_bins.getD 1 0)
      (intervals.getD 0 0) (intervals.getD 1 0) (intervals.getD 2 0) (intervals.getD 3 0)
    ++ vCounts pix (channels.getD 2 0) (num_bins.getD 2 0)
      (intervals.getD 4 0) (intervals.getD 5 0)

/-- `compute_object_histogram` (source lines 63-93).  The `mask` parameter is
accepted but — exactly as in the source, whose body never mentions it — not
used.  `none` models the all-NaN float32 vector produced by the unguarded
`obj_hist /= np.sum(obj_hist)` when the concatenated counts sum to zero; in
every other case the returned vector is the one the source returns. -/
def compute_object_histogram (img : Image) (objectBB : BoundingBox)
    (channels : List ℕ) (mask : Option Image) (num_bins : List ℕ)
    (intervals : List ℚ) : Option (List ℚ) :=
  let K := num_bins.getD 0 0 * num_bins.getD 1 0 + num_bins.getD 2 0
  let obj_image := crop img objectBB
  if (cvSplit obj_image).length = 3 then
    let obj_hist := rawObjHist img objectBB channels num_bins intervals
    if obj_hist.sum = 0 then none
    else some (obj_hist.map (fun x => x / obj_hist.sum))
  else some (List.replicate K 0)

/-- The persistent state of a `ColorHistObjectClassifier` instance: the
reference region `_bb`, the stored crop `_obj_img`, the parameter tuple
`_color_hist_params = (hist_channels, hist_mask, hist_num_bins,
hist_intervals)`, and the Reference Signature `_color_hist` (`none` models a
float vector that has become all-NaN). -/
structure ColorHistObjectClassifier where
  _bb : BoundingBox
  _obj_img : Image
  _color_hist_params : List ℕ × Option Image × List ℕ × List ℚ
  _color_hist : Option (List ℚ)

/-- `__init__` (source lines 40-61): store the region, the crop, the
parameter tuple, and the histogram of the initial bounding box.  No
validation of any parameter shape is performed. -/
def ColorHistObjectClassifier.init (hsv_img : Image) (bb : BoundingBox)
    (hist_channels : List ℕ) (hist_mask : Option Image)
    (hist_num_bins : List ℕ) (hist_intervals : List ℚ) :
    ColorHistObjectClassifier :=
  { _bb := bb
  , _obj_img := crop hsv_img bb
  , _color_hist_params := (hist_channels, hist_mask, hist_num_bins, hist_intervals)
  , _color_hist :=
      compute_object_histogram hsv_img bb hist_channels hist_mask hist_num_bins
        hist_intervals }

/-- The bounds test of source lines 128-132: the particle center `(x, y)`
satisfies `x ≥ 0`, `x < img.shape[1]`, `y ≥ 0`, `y < img.shape[0]`. -/
def validCenter (img : Image) (s : ℚ × ℚ) : Bool :=
  decide (0 ≤ s.1) && decide (s.1 < (imgWidth img : ℚ)) &&
    decide (0 ≤ s.2) && decide (s.2 < (imgHeight img : ℚ))

/-- The Bhattacharyya-derived distance of spec §4.2 step 4:
`d = (1/√2) · sqrt( Σ_bins ( sqrt(ref_bin) − sqrt(cand_bin) )² )`. -/
noncomputable def bhattDist (p q : List ℝ) : ℝ :=
  (1 / Real.sqrt 2) *
    Real.sqrt (((p.zip q).map (fun x => (Real.sqrt x.1 - Real.sqrt x.2) ^ 2)).sum)

/-- The Gaussian kernel of spec §4.2 step 5: `w = exp(−d² / (2·σ²))` with
fixed `σ = 0.1`. -/
noncomputable def gaussWeight (d : ℝ) : ℝ :=
  Real.exp (-(d ^ 2) / (2 * (1 / 10 : ℝ) ^ 2))

/-- The defensive renormalization of the stored Reference Signature (source
line 115, `self._color_hist / np.sum(self._color_hist)`), as a real
vector. -/
noncomputable def normRefR (ref : List ℚ) : List ℝ :=
  ref.map (fun r => ((r / ref.sum : ℚ) : ℝ))

/-- The per-candidate renormalization of source lines 117-119: divide by the
candidate's own sum, substituting `1` for a sum that is exactly zero. -/
noncomputable def normCandR (ph : List ℚ) : List ℝ :=
  ph.map (fun c => ((c / (if ph.sum = 0 then 1 else ph.sum) : ℚ) : ℝ))

/-- The weight of one particle (the body of the loop and the vectorized
arithmetic of `particle_weight`, source lines 108-134): build the candidate
histogram for the reference region re-centered on the particle, renormalize
reference and candidate, take the Bhattacharyya-derived distance, the
Gaussian kernel with `σ = 0.1`, and zero the result through the validity
mask.  `none` models a NaN weight: it arises when the stored `_color_hist`
is NaN, when its sum is zero (the unguarded division of line 115), or when
the candidate histogram is NaN (in float arithmetic `NaN` compares unequal
to `0`, so the `sum_hist[sum_hist == 0] = 1.0` guard of line 118 does not
fire, and `NaN` times the 0/1 validity mask is still `NaN`). -/
noncomputable def particleWeightOne (st : ColorHistObjectClassifier)
    (hsv_img : Image) (mask : Option Image) (state : ℚ × ℚ) : Option ℝ :=
  let particleBB := st._bb.centered_on state.1 state.2
  let particle_hist := compute_object_histogram hsv_img particleBB
    st._color_hist_params.1 mask st._color_hist_params.2.2.1
    st._color_hist_params.2.2.2
  match st._color_hist, particle_hist with
  | some ref, some ph =>
    if ref.sum = 0 then none
    else
      let s := if ph.sum = 0 then 1 else ph.sum
      let dist : ℝ := (1 / Real.sqrt 2) *
        Real.sqrt ((((ref.map (fun r => ((r / ref.sum : ℚ) : ℝ))).zip
          (ph.map (fun c => ((c / s : ℚ) : ℝ)))).map
            (fun x => (Real.sqrt x.1 - Real.sqrt x.2) ^ 2)).sum)
      some (Real.exp (-(dist ^ 2) / (2 * (1 / 10 : ℝ) ^ 2)) *
        (if validCenter hsv_img state then 1 else 0))
  | _, _ => none

/-- `particle_weight` (source lines 95-137): one weight per particle, in
batch order, paired with the classifier state after the call (the method
assigns no attribute of `self`, so the state is returned unchanged). -/
noncomputable def particle_weight (st : ColorHistObjectClassifier)
    (particles : List (ℚ × ℚ)) (hsv_img : Image) (mask : Option Image) :
    List (Option ℝ) × ColorHistObjectClassifier :=
  (particles.map (particleWeightOne st hsv_img mask), st)

/-- `score_object` (source lines 139-143): delegate to `particle_weight` on
the centroid of the given region. -/
noncomputable def score_object (st : ColorHistObjectClassifier)
    (hsv_img : Image) (bb : BoundingBox) (mask : Option Image) :
    List (Option ℝ) × ColorHistObjectClassifier :=
  particle_weight st [bb.centroid] hsv_img mask

/-- `update_object_histogram` (source lines 145-150): replace `_color_hist`
with `(1 − update_factor) · old + update_factor · new_histogram`, element
by element, with no renormalization.  A NaN Reference Signature stays NaN
(every float blend with a NaN operand is NaN). -/
def update_object_histogram (st : ColorHistObjectClassifier)
    (new_histogram : List ℚ) (update_factor : ℚ) : ColorHistObjectClassifier :=
  { st with
    _color_hist := st._color_hist.map
      (fun old => List.zipWith
        (fun o n => (1 - update_factor) * o + update_factor * n) old new_histogram) }

/-- The `color_hist_params` read-only accessor (source lines 152-154). -/
def color_hist_params (st : ColorHistObjectClassifier) :
    List ℕ × Option Image × List ℕ × List ℚ :=
  st._color_hist_params

/-- Modelled from the spec: the Histogram Builder as §4.1 describes it, in
which an externally supplied `mask`, when present, is used in place of the
derived achromatic mask (the caller's mask, cropped like the image, further
restricts which pixels feed the achromatic count), and a zero-sum histogram
is returned unnormalized rather than divided by zero.  This definition
exists only to be compared with `compute_object_histogram`. -/
def compute_object_histogram_spec (img : Image) (objectBB : BoundingBox)
    (channels : List ℕ) (mask : Option Image) (num_bins : List ℕ)
    (intervals : List ℚ) : Option (List ℚ) :=
  let K := num_bins.getD 0 0 * num_bins.getD 1 0 + num_bins.getD 2 0
  let obj_image := crop img objectBB
  if (cvSplit obj_image).length = 3 then
    let pix := pixelsOf obj_image
    let hs_hist := hsCounts pix (channels.getD 0 0) (channels.getD 1 0)
      (num_bins.getD 0 0) (num_bins.getD 1 0)
      (intervals.getD 0 0) (intervals.getD 1 0) (intervals.getD 2 0) (intervals.getD 3 0)
    let v_hist :=
      match mask with
      | none => vCounts pix (channels.getD 2 0) (num_bins.getD 2 0)
          (intervals.getD 4 0) (intervals.getD 5 0)
      | some m =>
        let mvals := (pixelsOf (crop m objectBB)).map (fun p => p.getD 0 0)
        (List.range (num_bins.getD 2 0)).map
          (fun k => (((pix.zip mvals).filter
            (fun pm => decide (0 < pm.2) &&
              (binIndex (intervals.getD 4 0) (intervals.getD 5 0)
                (num_bins.getD 2 0) (pm.1.getD (channels.getD 2 0) 0) == some k))).length : ℚ))
    let obj_hist := hs_hist ++ v_hist
    if obj_hist.sum = 0 then some obj_hist
    else some (obj_hist.map (fun x => x / obj_hist.sum))
  else some (List.replicate K 0)

/-! ## Concrete fixtures used by counterexamples and witnesses -/

/-- A 1×1 three-channel image whose only pixel is black. -/
def imgBlack : Image := [[[0, 0, 0]]]

/-- A 1×1 single-channel (grayscale) image. -/
def imgGray : Image := [[[7]]]

/-- A 1×1 three-channel image whose pixel passes both chroma thresholds. -/
def imgChroma : Image := [[[30, 60, 90]]]

/-- A 1×1 three-channel image with an achromatic pixel of value 100. -/
def imgV100 : Image := [[[0, 0, 100]]]

/-- A 1×1 all-zero external mask. -/
def maskZero : Image := [[[0]]]

/-- The unit bounding box covering a 1×1 image. -/
def bbUnit : BoundingBox := ⟨0, 1, 0, 1⟩

/-- A degenerate (zero-area) bounding box. -/
def bbEmpty : BoundingBox := ⟨0, 0, 0, 0⟩

/-- Full-range intervals for three 8-bit channels. -/
def ivFull : List ℚ := [0, 256, 0, 256, 0, 256]

/-- Intervals whose value-channel range `[1, 2)` excludes the value 0. -/
def ivExclV : List ℚ := [0, 1, 0, 1, 1, 2]

/-- Intervals whose value-channel range `[4, 6)` contains 5 but not 0. -/
def ivMidV : List ℚ := [0, 1, 0, 1, 4, 6]

/-- A classifier built, through the public constructor, from a degenerate
initial region: its Reference Signature is the all-zero vector. -/
def stZeroRef : ColorHistObjectClassifier :=
  ColorHistObjectClassifier.init imgBlack bbEmpty [0, 1, 2] none [1, 1, 1] ivFull

/-- A classifier whose Reference Signature `[0, 1]` is a probability mass
function, built from a 1×1 image with an achromatic pixel of value 5 and
value-channel interval `[4, 6)`. -/
def stRefPMF : ColorHistObjectClassifier :=
  ColorHistObjectClassifier.init [[[0, 0, 5]]] bbUnit [0, 1, 2] none [1, 1, 1] ivMidV

/-! ## General lemmas -/

/-- Dividing every entry of a list by `s` divides its sum by `s`. -/
theorem list_sum_map_div (l : List ℚ) (s : ℚ) :
    (l.map (fun x => x / s)).sum = l.sum / s := by
  induction l with
  | nil => simp
  | cons a t ih => simp [ih, add_div]

/-- Every entry of the raw count histogram is a (cast) pixel count, hence
non-negative. -/
theorem rawObjHist_nonneg (img : Image) (bb : BoundingBox) (ch nb : List ℕ)
    (iv : List ℚ) : ∀ x ∈ rawObjHist img bb ch nb iv, 0 ≤ x := by
  intro x hx
  simp only [rawObjHist, hsCounts, vCounts, List.mem_append, List.mem_map,
    List.mem_range] at hx
  rcases hx with ⟨k, _, rfl⟩ | ⟨k, _, rfl⟩ <;> exact Nat.cast_nonneg _

/-- The raw count histogram has the fixed length
`num_bins[0]*num_bins[1] + num_bins[2]`. -/
theorem rawObjHist_length (img : Image) (bb : BoundingBox) (ch nb : List ℕ)
    (iv : List ℚ) :
    (rawObjHist img bb ch nb iv).length =
      nb.getD 0 0 * nb.getD 1 0 + nb.getD 2 0 := by
  simp [rawObjHist, hsCounts, vCounts]

/-! ## C1 -/

/-- C1 (amended): the Histogram Builder returns `some` vector of the fixed
length `num_bins[0]*num_bins[1] + num_bins[2]` whose entries are
non-negative and either sum to 1 or are all zero — except that when the
crop splits into exactly 3 channels and no pixel at all is counted, the
unguarded `obj_hist /= np.sum(obj_hist)` divides zero by zero and the result
is the all-NaN vector (`none`), not the all-zero vector. -/
theorem compute_object_histogram_characterization (img : Image)
    (bb : BoundingBox) (ch : List ℕ) (mask : Option Image) (nb : List ℕ)
    (iv : List ℚ) :
    (∀ v, compute_object_histogram img bb ch mask nb iv = some v →
      v.length = nb.getD 0 0 * nb.getD 1 0 + nb.getD 2 0 ∧
      (∀ x ∈ v, 0 ≤ x) ∧
      (v.sum = 1 ∨ v = List.replicate (nb.getD 0 0 * nb.getD 1 0 + nb.getD 2 0) 0)) ∧
    (compute_object_histogram img bb ch mask nb iv = none ↔
      (cvSplit (crop img bb)).length = 3 ∧ (rawObjHist img bb ch nb iv).sum = 0) := by
  unfold compute_object_histogram
  by_cases h3 : (cvSplit (crop img bb)).length = 3
  · by_cases hz : (rawObjHist img bb ch nb iv).sum = 0
    · simp only [h3, if_true, hz, if_true]
      exact ⟨fun v hv => (by cases hv), by simp [h3, hz]⟩
    · simp only [h3, if_true, hz, if_false]
      refine ⟨fun v hv => ?_, by simp [hz]⟩
      obtain rfl : (rawObjHist img bb ch nb iv).map
          (fun x => x / (rawObjHist img bb ch nb iv).sum) = v := by
        simpa using hv
      have hnn := rawObjHist_nonneg img bb ch nb iv
      have hspos : 0 < (rawObjHist img bb ch nb iv).sum :=
        lt_of_le_of_ne (List.sum_nonneg hnn) (Ne.symm hz)
      refine ⟨by simp [rawObjHist_length], ?_, Or.inl ?_⟩
      · intro x hx
        simp only [List.mem_map] at hx
        obtain ⟨a, ha, rfl⟩ := hx
        exact div_nonneg (hnn a ha) hspos.le
      · rw [list_sum_map_div]
        exact div_self hz
  · simp only [h3, if_false]
    refine ⟨fun v hv => ?_, by simp [h3]⟩
    obtain rfl : List.replicate (nb.getD 0 0 * nb.getD 1 0 + nb.getD 2 0) (0:ℚ) = v := by
      simpa using hv
    refine ⟨by simp, ?_, Or.inr rfl⟩
    intro x hx
    obtain rfl := List.eq_of_mem_replicate hx
    exact le_refl 0

section
attribute [local semireducible] Rat.mul Rat.add Rat.sub Rat.inv

/-- C1 (counterexample): on a non-degenerate 1×1 three-channel crop whose
only pixel is counted by neither histogram (it fails the chroma test and its
value 0 lies outside the value interval `[1, 2)`), no pixel at all is
counted, yet the builder does not return the all-zero vector: it divides by
zero and returns the all-NaN vector (`none`), contradicting the claim that
it never divides by zero and returns the zero vector unnormalized. -/
theorem compute_object_histogram_divzero_nan :
    compute_object_histogram imgBlack bbUnit [0, 1, 2] none [1, 1, 1] ivExclV = none ∧
    pixelsOf (crop imgBlack bbUnit) ≠ [] := by decide

/-- Witness for `compute_object_histogram_characterization`: the conclusion
evaluated on a concrete 1×1 image whose pixel is chromatic. -/
theorem compute_object_histogram_characterization_witness :
    [(1:ℚ), 0, 0, 0, 0, 0].length =
        [2, 2, 2].getD 0 0 * [2, 2, 2].getD 1 0 + [2, 2, 2].getD 2 0 ∧
      (∀ x ∈ [(1:ℚ), 0, 0, 0, 0, 0], 0 ≤ x) ∧
      ([(1:ℚ), 0, 0, 0, 0, 0].sum = 1 ∨
        [(1:ℚ), 0, 0, 0, 0, 0] = List.replicate
          ([2, 2, 2].getD 0 0 * [2, 2, 2].getD 1 0 + [2, 2, 2].getD 2 0) 0) :=
  (compute_object_histogram_characterization imgChroma bbUnit [0, 1, 2] none
    [2, 2, 2] ivFull).1 [1, 0, 0, 0, 0, 0] (by decide)

end

/-! ## C2 -/

/-- C2 (amended): the externally supplied `mask` parameter is never used at
all — the builder's result does not depend on it, neither during initial
model construction nor when scoring particles; both the chromatic and the
achromatic histograms always use the derived masks. -/
theorem compute_object_histogram_mask_ignored (img : Image) (bb : BoundingBox)
    (ch : List ℕ) (m₁ m₂ : Option Image) (nb : List ℕ) (iv : List ℚ) :
    compute_object_histogram img bb ch m₁ nb iv =
      compute_object_histogram img bb ch m₂ nb iv := rfl

section
attribute [local semireducible] Rat.mul Rat.add Rat.sub Rat.inv

/-- C2 (counterexample): a 1×1 image with an achromatic pixel and an external
mask that excludes that pixel.  If, as the claim states, the external mask
were used in place of the derived achromatic mask, the achromatic histogram
would count nothing (the spec-modelled builder returns `[0, 0]`), but the
actual builder counts the pixel through the derived achromatic mask and
returns `[0, 1]`: the external mask is ignored. -/
theorem compute_object_histogram_mask_vs_spec :
    compute_object_histogram imgV100 bbUnit [0, 1, 2] (some maskZero) [1, 1, 1]
        ivFull = some [0, 1] ∧
      compute_object_histogram_spec imgV100 bbUnit [0, 1, 2] (some maskZero)
        [1, 1, 1] ivFull = some [0, 0] ∧
      compute_object_histogram imgV100 bbUnit [0, 1, 2] (some maskZero) [1, 1, 1]
          ivFull ≠
        compute_object_histogram_spec imgV100 bbUnit [0, 1, 2] (some maskZero)
          [1, 1, 1] ivFull := by decide

end

/-! ## C7 -/

/-- `zipWith` with the left projection keeps the left list when it is no
longer than the right one. -/
theorem zipWith_blend_factor_zero (a b : List ℚ) (h : a.length ≤ b.length) :
    List.zipWith (fun o _ => o) a b = a := by
  induction a generalizing b with
  | nil => simp
  | cons x t ih =>
    cases b with
    | nil => simp at h
    | cons y u =>
      simp only [List.zipWith_cons_cons, List.cons.injEq]
      exact ⟨trivial, ih u (Nat.le_of_succ_le_succ h)⟩

/-- `zipWith` with the right projection keeps the right list when it is no
longer than the left one. -/
theorem zipWith_blend_factor_one (a b : List ℚ) (h : b.length ≤ a.length) :
    List.zipWith (fun _ n => n) a b = b := by
  induction a generalizing b with
  | nil =>
    cases b with
    | nil => simp
    | cons y u => simp at h
  | cons x t ih =>
    cases b with
    | nil => simp
    | cons y u =>
      simp only [List.zipWith_cons_cons, List.cons.injEq]
      exact ⟨trivial, ih u (Nat.le_of_succ_le_succ h)⟩

/-- C7: `update_object_histogram` replaces the Reference Signature in place
with `(1 − update_factor)·old + update_factor·new`, element by element, with
no renormalization; with `update_factor = 0` the signature is unchanged and
with `update_factor = 1` it becomes exactly the new histogram. -/
theorem update_object_histogram_blend (st : ColorHistObjectClassifier)
    (old new_histogram : List ℚ) (update_factor : ℚ)
    (h : st._color_hist = some old)
    (hlen : new_histogram.length = old.length) :
    (update_object_histogram st new_histogram update_factor)._color_hist =
        some (List.zipWith (fun o n => (1 - update_factor) * o + update_factor * n)
          old new_histogram) ∧
      (update_object_histogram st new_histogram 0)._color_hist = some old ∧
      (update_object_histogram st new_histogram 1)._color_hist =
        some new_histogram := by
  refine ⟨by simp [update_object_histogram, h], ?_, ?_⟩
  · have hz := zipWith_blend_factor_zero old new_histogram (le_of_eq hlen.symm)
    simp [update_object_histogram, h, hz]
  · have ho := zipWith_blend_factor_one old new_histogram (le_of_eq hlen)
    simp [update_object_histogram, h, ho]

section
attribute [local semireducible] Rat.mul Rat.add Rat.sub Rat.inv

/-- Witness for `update_object_histogram_blend` on a concrete state. -/
theorem update_object_histogram_blend_witness :
    (update_object_histogram stRefPMF [3, 4] (1/2))._color_hist =
        some (List.zipWith (fun o n => (1 - (1/2:ℚ)) * o + (1/2) * n) [0, 1] [3, 4]) ∧
      (update_object_histogram stRefPMF [3, 4] 0)._color_hist = some [0, 1] ∧
      (update_object_histogram stRefPMF [3, 4] 1)._color_hist = some [3, 4] :=
  update_object_histogram_blend stRefPMF [0, 1] [3, 4] (1/2)
    (by decide) (by decide)

end

/-! ## C8 -/

/-- C8: scoring calls return the classifier state unchanged — neither
`particle_weight` nor `score_object` mutates `_bb`, `_color_hist` or
`_color_hist_params`; and the Model Updater touches only `_color_hist`,
leaving `_bb` and `_color_hist_params` intact. -/
theorem scoring_leaves_state_unchanged (st : ColorHistObjectClassifier)
    (ps : List (ℚ × ℚ)) (img : Image) (m : Option Image) (bb : BoundingBox)
    (nh : List ℚ) (f : ℚ) :
    (particle_weight st ps img m).2 = st ∧
      (score_object st img bb m).2 = st ∧
      (update_object_histogram st nh f)._bb = st._bb ∧
      (update_object_histogram st nh f)._color_hist_params =
        st._color_hist_params :=
  ⟨rfl, rfl, rfl, rfl⟩

/-! ## C9 -/

section
attribute [local semireducible] Rat.mul Rat.add Rat.sub Rat.inv

/-- C9 (evidence of the missing validation): constructing the classifier
with a malformed `hist_num_bins` of length 4 (one entry too many) is
accepted silently — no validation failure occurs anywhere; the extra entry
is ignored and the constructor produces exactly the Reference Signature it
produces for the well-formed `[2, 2, 2]`. -/
theorem init_accepts_malformed_num_bins :
    (ColorHistObjectClassifier.init imgChroma bbUnit [0, 1, 2] none [2, 2, 2, 7]
        ivFull)._color_hist = some [1, 0, 0, 0, 0, 0] ∧
      (ColorHistObjectClassifier.init imgChroma bbUnit [0, 1, 2] none [2, 2, 2, 7]
          ivFull)._color_hist =
        (ColorHistObjectClassifier.init imgChroma bbUnit [0, 1, 2] none [2, 2, 2]
            ivFull)._color_hist := by decide

end

/-! ## C10 -/

/-- C10: when the cropped region does not split into exactly 3 channels
(grayscale, 4-channel, or an empty crop, for which `cv2.split` yields no
channels at all), the builder skips all histogram computation and returns
the all-zero vector of length `num_bins[0]*num_bins[1] + num_bins[2]`. -/
theorem non_three_channel_returns_zero (img : Image) (bb : BoundingBox)
    (ch : List ℕ) (mask : Option Image) (nb : List ℕ) (iv : List ℚ)
    (h : (cvSplit (crop img bb)).length ≠ 3) :
    compute_object_histogram img bb ch mask nb iv =
      some (List.replicate (nb.getD 0 0 * nb.getD 1 0 + nb.getD 2 0) 0) := by
  unfold compute_object_histogram
  simp [h]

section
attribute [local semireducible] Rat.mul Rat.add Rat.sub Rat.inv

/-- Witness for `non_three_channel_returns_zero`: a 1×1 grayscale image. -/
theorem non_three_channel_returns_zero_witness :
    compute_object_histogram imgGray bbUnit [0, 1, 2] none [2, 2, 2] ivFull =
      some (List.replicate ([2, 2, 2].getD 0 0 * [2, 2, 2].getD 1 0 +
        [2, 2, 2].getD 2 0) 0) :=
  non_three_channel_returns_zero imgGray bbUnit [0, 1, 2] none [2, 2, 2] ivFull
    (by decide)

end

/-! ## Scorer lemmas shared by the particle-weight claims -/

/-- Indexing the weight list of `particle_weight` is scoring the single
corresponding particle. -/
theorem particle_weight_getD (st : ColorHistObjectClassifier)
    (ps : List (ℚ × ℚ)) (img : Image) (m : Option Image) (i : ℕ)
    (hi : i < ps.length) :
    (particle_weight st ps img m).1.getD i none =
      particleWeightOne st img m (ps.getD i (0, 0)) := by
  simp only [particle_weight]
  rw [List.getD_eq_getElem?_getD, List.getElem?_map,
    List.getElem?_eq_getElem hi, List.getD_eq_getElem?_getD,
    List.getElem?_eq_getElem hi]
  rfl

/-- When the Reference Signature is a real vector with non-zero sum and the
candidate histogram is a real vector, the weight of one particle is exactly
the Gaussian kernel of the Bhattacharyya-derived distance between the two
renormalized vectors, zeroed through the validity mask. -/
theorem particleWeightOne_eq (st : ColorHistObjectClassifier) (img : Image)
    (mask : Option Image) (s : ℚ × ℚ) (ref ph : List ℚ)
    (href : st._color_hist = some ref) (hsum : ref.sum ≠ 0)
    (hph : compute_object_histogram img (st._bb.centered_on s.1 s.2)
      st._color_hist_params.1 mask st._color_hist_params.2.2.1
      st._color_hist_params.2.2.2 = some ph) :
    particleWeightOne st img mask s =
      some (gaussWeight (bhattDist (normRefR ref) (normCandR ph)) *
        (if validCenter img s then 1 else 0)) := by
  unfold particleWeightOne
  simp only [href, hph]
  rw [if_neg hsum]
  rfl

/-- Every entry of a `some` result of the Histogram Builder is
non-negative. -/
theorem compute_object_histogram_some_nonneg (img : Image) (bb : BoundingBox)
    (ch : List ℕ) (mask : Option Image) (nb : List ℕ) (iv : List ℚ)
    (v : List ℚ) (hv : compute_object_histogram img bb ch mask nb iv = some v) :
    ∀ x ∈ v, 0 ≤ x := by
  unfold compute_object_histogram at hv
  by_cases h3 : (cvSplit (crop img bb)).length = 3
  · simp only [h3, if_true] at hv
    by_cases hz : (rawObjHist img bb ch nb iv).sum = 0
    · simp [hz] at hv
    · simp only [hz, if_false, Option.some.injEq] at hv
      subst hv
      intro x hx
      simp only [List.mem_map] at hx
      obtain ⟨a, ha, rfl⟩ := hx
      have hnn := rawObjHist_nonneg img bb ch nb iv
      exact div_nonneg (hnn a ha)
        (lt_of_le_of_ne (List.sum_nonneg hnn) (Ne.symm hz)).le
  · simp only [h3, if_false, Option.some.injEq] at hv
    subst hv
    intro x hx
    obtain rfl := List.eq_of_mem_replicate hx
    exact le_refl 0

/-- A list of non-negative rationals with zero sum is all zero. -/
theorem list_all_zero_of_sum_zero (l : List ℚ) (hnn : ∀ x ∈ l, 0 ≤ x)
    (hz : l.sum = 0) : ∀ x ∈ l, x = 0 := by
  induction l with
  | nil => intro x hx; cases hx
  | cons a t ih =>
    have ha : 0 ≤ a := hnn a (List.mem_cons_self a t)
    have ht : 0 ≤ t.sum := List.sum_nonneg (fun x hx => hnn x (List.mem_cons_of_mem a hx))
    rw [List.sum_cons] at hz
    obtain ⟨rfl, htz⟩ := (add_eq_zero_iff_of_nonneg ha ht).mp hz
    intro x hx
    rcases List.mem_cons.mp hx with rfl | hx
    · rfl
    · exact ih (fun x hx => hnn x (List.mem_cons_of_mem _ hx)) htz x hx

/-- Casting a list sum of rationals to the reals. -/
theorem list_sum_map_ratCast (l : List ℚ) :
    (l.map (Rat.cast : ℚ → ℝ)).sum = ((l.sum : ℚ) : ℝ) := by
  induction l with
  | nil => simp
  | cons a t ih => simp only [List.map_cons, List.sum_cons, Rat.cast_add, ih]

/-- The defensively renormalized Reference Signature sums to 1 whenever the
stored signature has non-zero sum. -/
theorem normRefR_sum_one (ref : List ℚ) (hsum : ref.sum ≠ 0) :
    (normRefR ref).sum = 1 := by
  unfold normRefR
  have hcomp : (fun r : ℚ => ((r / ref.sum : ℚ) : ℝ)) =
      (Rat.cast : ℚ → ℝ) ∘ (fun r : ℚ => r / ref.sum) := rfl
  rw [hcomp, ← List.map_map, list_sum_map_ratCast, list_sum_map_div,
    div_self hsum, Rat.cast_one]

/-- Every entry of the renormalized Reference Signature of a non-negative
signature with non-zero sum is non-negative. -/
theorem normRefR_nonneg (ref : List ℚ) (hnn : ∀ x ∈ ref, 0 ≤ x)
    (hsum : ref.sum ≠ 0) : ∀ x ∈ normRefR ref, 0 ≤ x := by
  intro x hx
  simp only [normRefR, List.mem_map] at hx
  obtain ⟨r, hr, rfl⟩ := hx
  have hpos : 0 < ref.sum := lt_of_le_of_ne (List.sum_nonneg hnn) (Ne.symm hsum)
  have : (0 : ℚ) ≤ r / ref.sum := div_nonneg (hnn r hr) hpos.le
  exact_mod_cast this

/-- Zipping a list with the all-zero list of its own length pairs each entry
with zero. -/
theorem zip_replicate_zero (p : List ℝ) :
    p.zip (List.replicate p.length (0 : ℝ)) = p.map (fun a => (a, 0)) := by
  induction p with
  | nil => rfl
  | cons a t ih => simp [List.replicate_succ, ih]

/-- The Bhattacharyya-derived distance from a non-negative vector summing
to 1 to the all-zero vector of the same length is `1/√2`. -/
theorem bhattDist_zero_right (p : List ℝ) (hnn : ∀ x ∈ p, 0 ≤ x)
    (hsum : p.sum = 1) :
    bhattDist p (List.replicate p.length 0) = 1 / Real.sqrt 2 := by
  unfold bhattDist
  rw [zip_replicate_zero, List.map_map]
  have : (p.map ((fun x : ℝ × ℝ => (Real.sqrt x.1 - Real.sqrt x.2) ^ 2) ∘
      (fun a => (a, 0)))) = p.map (fun a => a) := by
    apply List.map_congr_left
    intro a ha
    simp [Real.sqrt_zero, Real.sq_sqrt (hnn a ha)]
  rw [this, List.map_id', hsum, Real.sqrt_one, mul_one]

/-- A zip of a list with itself pairs each entry with itself. -/
theorem zip_self_eq_map (v : List ℝ) : v.zip v = v.map (fun a => (a, a)) := by
  induction v with
  | nil => rfl
  | cons a t ih => simp [ih]

/-- With a Reference Signature of zero sum, the unguarded renormalization of
source line 115 divides by zero and the particle's weight is NaN. -/
theorem particleWeightOne_zero_ref_nan (st : ColorHistObjectClassifier)
    (img : Image) (mask : Option Image) (s : ℚ × ℚ) (ref ph : List ℚ)
    (href : st._color_hist = some ref) (hz : ref.sum = 0)
    (hph : compute_object_histogram img (st._bb.centered_on s.1 s.2)
      st._color_hist_params.1 mask st._color_hist_params.2.2.1
      st._color_hist_params.2.2.2 = some ph) :
    particleWeightOne st img mask s = none := by
  unfold particleWeightOne
  simp only [href, hph]
  rw [if_pos hz]

/-- With a NaN candidate histogram, the zero-sum guard of source line 118
does not fire (NaN compares unequal to 0) and the particle's weight is
NaN. -/
theorem particleWeightOne_none_cand (st : ColorHistObjectClassifier)
    (img : Image) (mask : Option Image) (s : ℚ × ℚ) (ref : List ℚ)
    (href : st._color_hist = some ref)
    (hph : compute_object_histogram img (st._bb.centered_on s.1 s.2)
      st._color_hist_params.1 mask st._color_hist_params.2.2.1
      st._color_hist_params.2.2.2 = none) :
    particleWeightOne st img mask s = none := by
  unfold particleWeightOne
  simp only [href, hph]

/-! ## C3 -/

/-- C3: for every candidate with a real (non-NaN) histogram, scored against
a Reference Signature with non-zero sum, the scorer computes exactly the
weight `w = exp(−d²/(2·σ²))` with `σ = 0.1` (masked by validity), where `d`
is the Bhattacharyya-derived distance between the defensively renormalized
Reference Signature and the candidate's renormalized histogram; the distance
of any vector to itself is 0 and a distance of 0 yields weight exactly 1. -/
theorem particle_weight_gaussian_formula (st : ColorHistObjectClassifier)
    (ps : List (ℚ × ℚ)) (img : Image) (mask : Option Image) (i : ℕ)
    (ref ph : List ℚ) (href : st._color_hist = some ref)
    (hsum : ref.sum ≠ 0) (hi : i < ps.length)
    (hph : compute_object_histogram img
      (st._bb.centered_on (ps.getD i (0, 0)).1 (ps.getD i (0, 0)).2)
      st._color_hist_params.1 mask st._color_hist_params.2.2.1
      st._color_hist_params.2.2.2 = some ph) :
    (particle_weight st ps img mask).1.getD i none =
        some (gaussWeight (bhattDist (normRefR ref) (normCandR ph)) *
          (if validCenter img (ps.getD i (0, 0)) then 1 else 0)) ∧
      (∀ v : List ℝ, bhattDist v v = 0) ∧ gaussWeight 0 = 1 := by
  refine ⟨?_, ?_, ?_⟩
  · rw [particle_weight_getD st ps img mask i hi]
    exact particleWeightOne_eq st img mask _ ref ph href hsum hph
  · intro v
    unfold bhattDist
    rw [zip_self_eq_map, List.map_map]
    have hz : (v.map ((fun x : ℝ × ℝ => (Real.sqrt x.1 - Real.sqrt x.2) ^ 2) ∘
        (fun a => (a, a)))) = v.map (fun _ => (0 : ℝ)) := by
      apply List.map_congr_left
      intro a _
      simp
    rw [hz]
    simp [List.sum_eq_zero]
  · simp [gaussWeight, Real.exp_zero]

section
attribute [local semireducible] Rat.mul Rat.add Rat.sub Rat.inv

/-- Witness for `particle_weight_gaussian_formula`: the round-trip particle
re-centered on the 1×1 reference image. -/
theorem particle_weight_gaussian_formula_witness :
    (particle_weight stRefPMF [((1:ℚ)/2, 1/2)] [[[0, 0, 5]]] none).1.getD 0 none =
      some (gaussWeight (bhattDist (normRefR [0, 1]) (normCandR [0, 1])) *
        (if validCenter [[[0, 0, 5]]] ((1:ℚ)/2, 1/2) then 1 else 0)) :=
  (particle_weight_gaussian_formula stRefPMF [((1:ℚ)/2, 1/2)] [[[0, 0, 5]]]
    none 0 [0, 1] [0, 1] (by decide) (by decide) (by decide) (by decide)).1

end

/-! ## C4 -/

/-- C4 (amended): provided the Reference Signature is a non-negative real
vector with non-zero sum and the candidate histogram is real (not NaN), a
particle whose center fails the bounds test gets weight exactly 0 and a
particle whose center passes it keeps its Gaussian-kernel weight. -/
theorem out_of_bounds_weight_zero (st : ColorHistObjectClassifier)
    (ps : List (ℚ × ℚ)) (img : Image) (mask : Option Image) (i : ℕ)
    (ref ph : List ℚ) (href : st._color_hist = some ref)
    (hnn : ∀ x ∈ ref, 0 ≤ x) (hsum : ref.sum ≠ 0) (hi : i < ps.length)
    (hph : compute_object_histogram img
      (st._bb.centered_on (ps.getD i (0, 0)).1 (ps.getD i (0, 0)).2)
      st._color_hist_params.1 mask st._color_hist_params.2.2.1
      st._color_hist_params.2.2.2 = some ph) :
    (validCenter img (ps.getD i (0, 0)) = false →
      (particle_weight st ps img mask).1.getD i none = some 0) ∧
    (validCenter img (ps.getD i (0, 0)) = true →
      (particle_weight st ps img mask).1.getD i none =
        some (gaussWeight (bhattDist (normRefR ref) (normCandR ph)))) := by
  have heq := particle_weight_getD st ps img mask i hi
  have hone := particleWeightOne_eq st img mask _ ref ph href hsum hph
  constructor
  · intro hv
    rw [heq, hone, hv]
    simp
  · intro hv
    rw [heq, hone, hv]
    simp

section
attribute [local semireducible] Rat.mul Rat.add Rat.sub Rat.inv

/-- C4 (counterexample): on a classifier built from a degenerate initial
region (all-zero Reference Signature, reachable through the public
constructor), an out-of-bounds particle does not receive weight 0: line 115
divides the all-zero signature by its zero sum, and the resulting NaN
survives the multiplication by the 0/1 validity mask, so the weight is NaN
(`none`), not 0. -/
theorem out_of_bounds_weight_nan :
    validCenter imgBlack ((-10 : ℚ), -10) = false ∧
      (particle_weight stZeroRef [((-10 : ℚ), -10)] imgBlack none).1 = [none] ∧
      ∀ w : ℝ, ¬ ((none : Option ℝ) = some w) := by
  refine ⟨by decide, ?_, fun w h => by cases h⟩
  simp only [particle_weight, List.map_cons, List.map_nil]
  rw [particleWeightOne_zero_ref_nan stZeroRef imgBlack none ((-10 : ℚ), -10)
    [0, 0] [0, 0] (by decide) (by decide) (by decide)]

/-- Witness for `out_of_bounds_weight_zero`: a particle at x = −5 on a 1×1
image, with a well-formed reference, receives weight exactly 0. -/
theorem out_of_bounds_weight_zero_witness :
    validCenter [[[0, 0, 5]]] ((-5 : ℚ), 0) = false ∧
      (particle_weight stRefPMF [((-5 : ℚ), 0)] [[[0, 0, 5]]] none).1.getD 0 none =
        some 0 :=
  ⟨by decide,
    (out_of_bounds_weight_zero stRefPMF [((-5 : ℚ), 0)] [[[0, 0, 5]]] none 0
      [0, 1] [0, 0] (by decide) (by decide) (by decide) (by decide)
      (by decide)).1 (by decide)⟩

end

/-! ## C5 -/

/-- C5 (amended): a candidate histogram whose sum is exactly zero has its
sum replaced by 1 before normalization, so the candidate stays all-zero;
against a non-negative Reference Signature with non-zero sum, an in-bounds
particle with such a candidate receives the weight `exp(−25)` — the distance
is exactly `1/√2`, which is not the maximal distance (disjoint-support
candidates reach distance 1 and weight `exp(−50)`). -/
theorem zero_candidate_weight_exp25 (st : ColorHistObjectClassifier)
    (ps : List (ℚ × ℚ)) (img : Image) (mask : Option Image) (i : ℕ)
    (ref ph : List ℚ) (href : st._color_hist = some ref)
    (hnn : ∀ x ∈ ref, 0 ≤ x) (hsum : ref.sum ≠ 0)
    (hlen : ph.length = ref.length) (hi : i < ps.length)
    (hph : compute_object_histogram img
      (st._bb.centered_on (ps.getD i (0, 0)).1 (ps.getD i (0, 0)).2)
      st._color_hist_params.1 mask st._color_hist_params.2.2.1
      st._color_hist_params.2.2.2 = some ph)
    (hz : ph.sum = 0) (hv : validCenter img (ps.getD i (0, 0)) = true) :
    (particle_weight st ps img mask).1.getD i none = some (Real.exp (-25)) := by
  rw [particle_weight_getD st ps img mask i hi,
    particleWeightOne_eq st img mask _ ref ph href hsum hph, hv]
  have hphz : ∀ x ∈ ph, x = 0 :=
    list_all_zero_of_sum_zero ph
      (compute_object_histogram_some_nonneg img _ _ mask _ _ ph hph) hz
  have hcand : normCandR ph = List.replicate (normRefR ref).length 0 := by
    rw [List.eq_replicate_iff]
    constructor
    · simp [normCandR, normRefR, hlen]
    · intro b hb
      simp only [normCandR, List.mem_map] at hb
      obtain ⟨c, hc, rfl⟩ := hb
      rw [hphz c hc]
      simp
  rw [hcand, bhattDist_zero_right (normRefR ref)
    (normRefR_nonneg ref hnn hsum) (normRefR_sum_one ref hsum)]
  unfold gaussWeight
  rw [if_pos rfl, mul_one]
  congr 1
  rw [div_pow, one_pow, Real.sq_sqrt (by norm_num : (0:ℝ) ≤ 2)]
  norm_num

section
attribute [local semireducible] Rat.mul Rat.add Rat.sub Rat.inv

/-- Witness for `zero_candidate_weight_exp25`: scoring the PMF-reference
classifier against a grayscale frame (whose candidate histogram is the
all-zero vector) at an in-bounds particle yields exactly `exp(−25)`. -/
theorem zero_candidate_weight_exp25_witness :
    (particle_weight stRefPMF [((1:ℚ)/2, 1/2)] imgGray none).1.getD 0 none =
      some (Real.exp (-25)) :=
  zero_candidate_weight_exp25 stRefPMF [((1:ℚ)/2, 1/2)] imgGray none 0
    [0, 1] [0, 0] (by decide) (by decide) (by decide) (by decide) (by decide)
    (by decide) (by decide) (by decide)

/-- C5 (counterexample): scoring the PMF-reference classifier (whose stored
value interval `[4, 6)` excludes the black frame's pixel value 0) on a black
frame: no pixel is counted, the candidate histogram is NaN (the builder's
division by zero), and the in-bounds particle's weight is NaN (`none`) — not
a defined numeric value.  Moreover the zero-sum-candidate distance `1/√2`
(`bhattDist [1] [0]`) is strictly below the distance 1 reached by a
disjoint-support candidate (`bhattDist [1,0] [0,1]`), so it is not the
maximal distance and its weight is not minimal. -/
theorem scorer_nan_and_submaximal_distance :
    (particle_weight stRefPMF [((1:ℚ)/2, 1/2)] imgBlack none).1 = [none] ∧
      validCenter imgBlack ((1:ℚ)/2, 1/2) = true ∧
      bhattDist [(1:ℝ)] [0] < bhattDist [(1:ℝ), 0] [0, 1] := by
  refine ⟨?_, by decide, ?_⟩
  · simp only [particle_weight, List.map_cons, List.map_nil]
    rw [particleWeightOne_none_cand stRefPMF imgBlack none ((1:ℚ)/2, 1/2)
      [0, 1] (by decide) (by decide)]
  · have h1 : bhattDist [(1:ℝ)] [0] = 1 / Real.sqrt 2 := by
      unfold bhattDist
      simp [Real.sqrt_one, Real.sqrt_zero]
    have h2 : bhattDist [(1:ℝ), 0] [0, 1] = 1 := by
      unfold bhattDist
      have hsum2 : (List.map (fun x : ℝ × ℝ => (Real.sqrt x.1 - Real.sqrt x.2) ^ 2)
          ([((1:ℝ), (0:ℝ)), ((0:ℝ), (1:ℝ))])).sum = 2 := by
        simp [Real.sqrt_one, Real.sqrt_zero]
        norm_num
      have hzip : ([(1:ℝ), 0].zip [(0:ℝ), 1]) = [((1:ℝ), (0:ℝ)), ((0:ℝ), (1:ℝ))] := rfl
      rw [hzip, hsum2, one_div]
      rw [inv_mul_eq_div, div_eq_one_iff_eq (by positivity)]
    rw [h1, h2, div_lt_one (Real.sqrt_pos.mpr (by norm_num))]
    rw [show (1:ℝ) = Real.sqrt 1 from (Real.sqrt_one).symm]
    exact Real.sqrt_lt_sqrt (by norm_num) (by norm_num)

end

/-! ## C6 -/

/-- C6 (amended): the scorer returns exactly one weight per particle, in
batch order; every particle whose Reference Signature is a non-negative real
vector with non-zero sum and whose candidate histogram is real (not NaN)
receives a weight in `[0, 1]` (NaN weights, modelled as `none`, arise
otherwise). -/
theorem particle_weight_length_bounds (st : ColorHistObjectClassifier)
    (ps : List (ℚ × ℚ)) (img : Image) (mask : Option Image) :
    (particle_weight st ps img mask).1.length = ps.length ∧
      (∀ i ref ph, i < ps.length → st._color_hist = some ref →
        (∀ x ∈ ref, 0 ≤ x) → ref.sum ≠ 0 →
        compute_object_histogram img
          (st._bb.centered_on (ps.getD i (0, 0)).1 (ps.getD i (0, 0)).2)
          st._color_hist_params.1 mask st._color_hist_params.2.2.1
          st._color_hist_params.2.2.2 = some ph →
        ∃ w : ℝ, (particle_weight st ps img mask).1.getD i none = some w ∧
          0 ≤ w ∧ w ≤ 1) := by
  refine ⟨by simp [particle_weight], ?_⟩
  intro i ref ph hi href hnn hsum hph
  rw [particle_weight_getD st ps img mask i hi,
    particleWeightOne_eq st img mask _ ref ph href hsum hph]
  refine ⟨_, rfl, ?_, ?_⟩
  · apply mul_nonneg (Real.exp_nonneg _)
    split
    · exact zero_le_one
    · exact le_refl 0
  · have hexp : gaussWeight (bhattDist (normRefR ref) (normCandR ph)) ≤ 1 := by
      unfold gaussWeight
      rw [Real.exp_le_one_iff]
      apply div_nonpos_of_nonpos_of_nonneg
      · exact neg_nonpos.mpr (sq_nonneg _)
      · norm_num
    have hind : (if validCenter img (ps.getD i (0, 0)) then (1:ℝ) else 0) ≤ 1 := by
      split
      · exact le_refl 1
      · exact zero_le_one
    have hind0 : (0:ℝ) ≤ (if validCenter img (ps.getD i (0, 0)) then (1:ℝ) else 0) := by
      split
      · exact zero_le_one
      · exact le_refl 0
    exact mul_le_one₀ hexp hind0 hind

section
attribute [local semireducible] Rat.mul Rat.add Rat.sub Rat.inv

/-- Witness for `particle_weight_length_bounds` at a concrete in-bounds
particle with a real candidate histogram. -/
theorem particle_weight_length_bounds_witness :
    ∃ w : ℝ,
      (particle_weight stRefPMF [((1:ℚ)/2, 1/2)] [[[0, 0, 5]]] none).1.getD 0 none =
          some w ∧ 0 ≤ w ∧ w ≤ 1 :=
  (particle_weight_length_bounds stRefPMF [((1:ℚ)/2, 1/2)] [[[0, 0, 5]]] none).2
    0 [0, 1] [0, 1] (by decide) (by decide) (by decide) (by decide) (by decide)

/-- C6 (counterexample): on a classifier built from a degenerate initial
region, the weight of an in-bounds particle is NaN (`none`), which is not a
real number in `[0, 1]`: the claim that every returned weight lies in
`[0, 1]` fails. -/
theorem weight_nan_not_in_unit_interval :
    (particle_weight stZeroRef [((1:ℚ)/2, 1/2)] imgBlack none).1 = [none] ∧
      validCenter imgBlack ((1:ℚ)/2, 1/2) = true ∧
      ∀ w : ℝ, ¬ ((none : Option ℝ) = some w) := by
  refine ⟨?_, by decide, fun w h => by cases h⟩
  simp only [particle_weight, List.map_cons, List.map_nil]
  rw [particleWeightOne_zero_ref_nan stZeroRef imgBlack none ((1:ℚ)/2, 1/2)
    [0, 0] [0, 0] (by decide) (by decide) (by decide)]

end
